import Mathlib

/-!
Verification of the interactive terminal list-selection engine of
`generate-turso-db.py` (Turso database creator / deletion tool).

The Python source is shallowly embedded: every definition below mirrors a
function or a code block of `src/generate-turso-db.py` and is named after it
where Lean allows.  External collaborators (the `turso` CLI invoked through
`run_command`, i.e. `turso db show` and `turso db destroy`) are injected as
oracle functions, exactly at the boundary where the code calls them.
-/

namespace Turso


/-- One database entry, as built by `fetch_all_database_details`
(lines 1027-1033 of the source): a dict with keys
`name`, `selected`, `group`, `size`, `details_loaded`. -/
structure Item where
  name : String
  selected : Bool
  group : String
  size : String
  details_loaded : Bool
deriving Repr, DecidableEq

/-- The initial shape of an entry: `selected = False`, `size = "Loading..."`,
`details_loaded = False` (source lines 1027-1033). -/
def mkItem (name group : String) : Item :=
  { name := name, selected := false, group := group,
    size := "Loading...", details_loaded := false }

instance : Inhabited Item := ⟨mkItem "" "default"⟩

/-- Outcome of one `turso db show <name>` invocation as the code consumes it:
the `run_command` exit code together with the two regex captures
`Size:\s+([\d.]+\s*[KMGTP]?B)` and `Group:\s+(\w+)` applied to its stdout
(`None` when the pattern does not match).  The subprocess plus the two
regex searches are the injected `fetchDetail` collaborator of the spec. -/
structure ShowResult where
  code : Int
  sizeCapture : Option String
  groupCapture : Option String

/-- The injected collaborator: `name ↦` result of `turso db show name`. -/
abbrev ShowOracle := String → ShowResult

/-- `fetch_db_details` (source lines 1062-1089), the hydration worker run for
one item inside the thread pool:

* if `details_loaded` is already set, return the item unchanged;
* on exit code 0, store the captured size (`"Unknown"` when the regex fails),
  the captured group (keeping the existing group when the regex fails — the
  `db_data.get("group", "default")` call always finds the key), and set
  `details_loaded`;
* on a non-zero exit code, store the placeholder `"Error"` size, keep the
  group (`db_data.get("group", "Error")` also always finds the key), and set
  `details_loaded`.

The `except` clause of the source is unreachable in the embedding because
field extraction is total here; no exception escapes the worker. -/
def fetch_db_details (showDb : ShowOracle) (db : Item) : Item :=
  if db.details_loaded then db
  else
    let r := showDb db.name
    if r.code = 0 then
      { db with
        group := r.groupCapture.getD db.group,
        size := r.sizeCapture.getD "Unknown",
        details_loaded := true }
    else
      { db with size := "Error", details_loaded := true }

/-- `load_database_details_batch` (source lines 1052-1101): take the slice
`db_list[start_idx:end_idx]`, keep the entries with `details_loaded` false,
and run `fetch_db_details` on exactly those (the thread pool mutates the
shared dicts in place; list positions outside the slice, and loaded entries
inside it, are untouched).  The resulting list value is captured here
per index. -/
def load_database_details_batch (showDb : ShowOracle) (l : List Item)
    (start_idx end_idx : Nat) : List Item :=
  l.mapIdx fun i db =>
    if start_idx ≤ i ∧ i < end_idx ∧ db.details_loaded = false then
      fetch_db_details showDb db
    else db

/-- The indices actually submitted to the pool by one
`load_database_details_batch` call: the positions of the `unloaded`
comprehension `[db for db in db_list[start_idx:end_idx]
if not db.get("details_loaded", False)]` (source lines 1056-1057). -/
def batchFetchedIdx (l : List Item) (start_idx end_idx : Nat) : List Nat :=
  (List.range l.length).filter fun i =>
    decide (start_idx ≤ i ∧ i < end_idx ∧
      (l.getD i default).details_loaded = false)

/-- The names submitted to the pool (the `unloaded` list itself, by name). -/
def unloadedNames (l : List Item) (start_idx end_idx : Nat) : List String :=
  (batchFetchedIdx l start_idx end_idx).map fun i => (l.getD i default).name

/-! ## Pagination & cursor controller

`interactive_deletion` (source lines 1160-1273) keeps `page_size = 25`,
`current_page`, `current_index` and `total_pages = math.ceil(len/page_size)`
and updates them on arrow/`j`/`k`/`n`/`p` keys.  The update logic is
identical in `delete_empty_databases_interactive` (lines 1442-1566). -/

/-- `page_size = 25` (source lines 1160 and 1442). -/
def page_size : Nat := 25

/-- `total_pages = math.ceil(len(databases) / page_size)` (source lines 1162
and 1444), as ceiling division on naturals. -/
def total_pages (N ps : Nat) : Nat := (N + ps - 1) / ps

/-- The two mutable cursor variables of the input loop. -/
structure PagState where
  currentIndex : Nat
  currentPage : Nat
deriving Repr, DecidableEq

/-- The four navigation commands of the pagination controller. -/
inductive NavCmd where
  | moveUp | moveDown | nextPage | prevPage
deriving Repr, DecidableEq

/-- One navigation command applied to the cursor state, mirroring the
branches of the input loop (source lines 1243-1273):

* `moveUp` (`↑`/`k`): decrement when `current_index > 0`, and decrement the
  page when the index drops below `current_page * page_size`;
* `moveDown` (`↓`/`j`): increment when `current_index < len - 1`, and
  increment the page when the index reaches `(current_page+1) * page_size`;
* `nextPage` (`n`): when `current_page < total_pages - 1`, increment the
  page and jump the index to the top of the new page;
* `prevPage` (`p`): when `current_page > 0`, decrement the page and jump
  the index to the top of the new page. -/
def navStep (N ps : Nat) (st : PagState) : NavCmd → PagState
  | .moveUp =>
    if st.currentIndex > 0 then
      { currentIndex := st.currentIndex - 1,
        currentPage :=
          if st.currentIndex - 1 < st.currentPage * ps then st.currentPage - 1
          else st.currentPage }
    else st
  | .moveDown =>
    if st.currentIndex < N - 1 then
      { currentIndex := st.currentIndex + 1,
        currentPage :=
          if st.currentIndex + 1 ≥ (st.currentPage + 1) * ps then
            st.currentPage + 1
          else st.currentPage }
    else st
  | .nextPage =>
    if st.currentPage < total_pages N ps - 1 then
      { currentIndex := (st.currentPage + 1) * ps, currentPage := st.currentPage + 1 }
    else st
  | .prevPage =>
    if st.currentPage > 0 then
      { currentIndex := (st.currentPage - 1) * ps, currentPage := st.currentPage - 1 }
    else st

/-- The pagination invariant: the page is the index's page, and the index
stays inside the directory. -/
def PagInv (N ps : Nat) (st : PagState) : Prop :=
  st.currentPage = st.currentIndex / ps ∧ st.currentIndex < N

/-! ## Input decoder

The byte-at-a-time keyboard decoding of the input loop
(`delete_empty_databases_interactive`, source lines 1519-1634; the loop in
`interactive_deletion`, lines 1235-1321, is byte-for-byte the same chain).
One decoding step reads one byte from the raw-mode stream; an escape byte
triggers up to two follow-up reads. -/

/-- The escape byte `'\x1b'` (source lines 1239 and 1525). -/
def escByte : Char := '\x1b'

/-- The interrupt byte `'\x03'` (Ctrl-C, source lines 1320 and 1633). -/
def interruptByte : Char := '\x03'

/-- The commands a decoding step can emit. -/
inductive Cmd where
  | moveUp | moveDown | toggleSelect | selectAllOnPage | deselectAllOnPage
  | nextPage | prevPage | confirm | quit | cancel | noop
deriving Repr, DecidableEq

/-- One decoding step of the input loop (source lines 1523-1634): consume the
leading byte (plus up to two more after an escape byte) and emit one command
together with the unconsumed remainder of the stream, from which the next
step starts afresh (the idle state).  `sys.stdin.read(1)` at end of stream
returns `''`, which the chain treats like any unrecognized byte; after a lone
escape byte it fails the `== '['` test and the loop breaks (quit). -/
def decodeKey : List Char → Cmd × List Char
  | [] => (.noop, [])
  | c :: rest =>
    if c = escByte then
      match rest with
      | [] => (.quit, [])
      | n :: rest2 =>
        if n = '[' then
          match rest2 with
          | [] => (.noop, [])
          | a :: rest3 =>
            (if a = 'A' then .moveUp
             else if a = 'B' then .moveDown
             else .noop, rest3)
        else (.quit, rest2)
    else if c = ' ' then (.toggleSelect, rest)
    else if c = 'j' ∨ c = 'J' then (.moveDown, rest)
    else if c = 'k' ∨ c = 'K' then (.moveUp, rest)
    else if c = 'n' ∨ c = 'N' then (.nextPage, rest)
    else if c = 'p' ∨ c = 'P' then (.prevPage, rest)
    else if c = 'a' ∨ c = 'A' then (.selectAllOnPage, rest)
    else if c = 'd' ∨ c = 'D' then (.deselectAllOnPage, rest)
    else if c = '\r' ∨ c = '\n' then (.confirm, rest)
    else if c = 'q' ∨ c = 'Q' then (.quit, rest)
    else if c = interruptByte then (.cancel, rest)
    else (.noop, rest)

/-! ## Confirmation gate, execution loops and the full input loop -/

/-- Drop leading whitespace characters from a character list. -/
def dropLeadingWs : List Char → List Char
  | [] => []
  | c :: cs => if c.isWhitespace then dropLeadingWs cs else c :: cs

/-- Python's `str.strip()` as the source applies it to the typed confirmation
line (`input(...).strip()`, source lines 1297 and 1592): whitespace removed
from both ends.  (Python also strips some non-ASCII whitespace; the byte-level
keyboard input of this program never produces those.) -/
def py_strip (s : String) : String :=
  ⟨(dropLeadingWs (dropLeadingWs s.data).reverse).reverse⟩

/-- The confirmation gate (source lines 1297-1299 and 1592-1594): the typed
line is stripped and compared against the literal token `DELETE`. -/
def confirm_token_ok (typed : String) : Bool :=
  py_strip typed == "DELETE"

/-- `delete_database` (source lines 958-975) modelled at its collaborator
boundary: `turso db destroy <name> --yes` plus the output check collapse to
an injected `name ↦ ok` predicate. -/
abbrev DestroyOracle := String → Bool

/-- The execution loop of `interactive_deletion` (source lines 1301-1304):
`all_successful` starts `True` and is cleared whenever `delete_database`
reports failure. -/
def run_deletions (destroy : DestroyOracle) (selected : List Item) : Bool :=
  selected.foldl (fun acc db => if destroy db.name then acc else false) true

/-- The final tallies of the execution loop of
`delete_empty_databases_interactive` (source lines 1596-1605). -/
structure ExecReport where
  success_count : Nat
  failure_count : Nat
  failed_databases : List String
deriving Repr, DecidableEq

/-- The execution loop of `delete_empty_databases_interactive`
(source lines 1600-1605), one iteration per selected item, also recording
the trace of `delete_database` invocations (second component): each item's
name is passed to the destroy collaborator exactly once, in order. -/
def delete_selected_go (destroy : DestroyOracle) :
    ExecReport × List String → List Item → ExecReport × List String
  | acc, [] => acc
  | acc, db :: rest =>
    let calls := acc.2 ++ [db.name]
    if destroy db.name then
      delete_selected_go destroy
        ({ acc.1 with success_count := acc.1.success_count + 1 }, calls) rest
    else
      delete_selected_go destroy
        ({ acc.1 with
            failure_count := acc.1.failure_count + 1
            failed_databases := acc.1.failed_databases ++ [db.name] }, calls) rest

/-- The execution phase started with zeroed counters (source lines 1596-1598). -/
def delete_selected_report (destroy : DestroyOracle) (selected : List Item) :
    ExecReport × List String :=
  delete_selected_go destroy (⟨0, 0, []⟩, []) selected

/-- `databases[current_index]["selected"] = not databases[current_index]
.get("selected", False)` (source line 1255). -/
def toggle_at (l : List Item) (i : Nat) : List Item :=
  l.set i (let db := l.getD i default; { db with selected := !db.selected })

/-- The `a`/`d` page-wide selection loops (source lines 1275-1285): set
`selected` on every index of `[start_idx, end_idx)`. -/
def set_selected_range (l : List Item) (s e : Nat) (b : Bool) : List Item :=
  l.mapIdx fun i db => if s ≤ i ∧ i < e then { db with selected := b } else db

/-- The two terminal modes the session moves between: the saved
`old_settings` (cooked) and `tty.setraw`. -/
inductive TermMode where
  | original | raw
deriving Repr, DecidableEq

/-- The mutable state of the `interactive_deletion` input loop:
the item list plus the two cursor variables.  (`total_pages` is recomputed
from the fixed list length; the list shape never changes.) -/
structure LoopState where
  databases : List Item
  pag : PagState
deriving Repr, DecidableEq

/-- How one loop iteration of `interactive_deletion` ends. -/
inductive Outcome where
  /-- `q`/`Q` pressed (source line 1317). -/
  | quitKey
  /-- escape byte followed by a byte other than `[` (source line 1252). -/
  | escQuit
  /-- confirmed execution finished (source lines 1299-1312);
  carries `all_successful`. -/
  | executed (all_successful : Bool)
  /-- Ctrl-C raised `KeyboardInterrupt`, caught at source line 1323. -/
  | interrupted
  /-- `input()` hit end of stream and raised; the `finally` still runs. -/
  | eofError
  /-- the byte stream ran out (the real loop would block for a key). -/
  | inputExhausted
  /-- recursion fuel ran out (never reached: fuel exceeds the key count). -/
  | fuelOut
deriving Repr, DecidableEq

/-- Result of handling one read byte: either continue looping with updated
state, or leave the loop. -/
inductive StepResult where
  | next (st : LoopState) (mode : TermMode) (keys : List Char) (lines : List String)
  | halt (o : Outcome) (st : LoopState) (mode : TermMode)
deriving Repr, DecidableEq

/-- The body of the `interactive_deletion` input loop for one read byte
(source lines 1237-1321), after `display_page()` has run:

* escape byte: read the next byte; `[` leads to the arrow byte, handled with
  the combined guards of lines 1243-1250 (same transitions as `navStep`);
  anything else breaks out of the loop (bare escape);
* space toggles the item under the cursor; `j/k/n/p` navigate;
  `a`/`d` select/deselect the current page;
* Enter with an empty selection does nothing; with a non-empty selection the
  terminal is restored (`tcsetattr old_settings`), one line is read and
  stripped, and only the literal token passes the gate — on decline the loop
  re-enters raw mode with all state unchanged.  (The trailing
  `input("Press Enter to exit...")` after a completed execution is not
  modelled; its result is discarded by the code.)
* `q` breaks; Ctrl-C raises `KeyboardInterrupt` (caught outside the loop);
* every other byte matches no branch: the loop just blocks for the next key. -/
def handleChar (destroy : DestroyOracle) (st : LoopState) (mode : TermMode)
    (c : Char) (keys : List Char) (lines : List String) : StepResult :=
  let N := st.databases.length
  if c = escByte then
    match keys with
    | [] => .halt .escQuit st mode
    | n :: keys2 =>
      if n = '[' then
        match keys2 with
        | [] => .next st mode [] lines
        | a :: keys3 =>
          if a = 'A' then
            .next { st with pag := navStep N page_size st.pag .moveUp } mode keys3 lines
          else if a = 'B' then
            .next { st with pag := navStep N page_size st.pag .moveDown } mode keys3 lines
          else .next st mode keys3 lines
      else .halt .escQuit st mode
  else if c = ' ' then
    .next { st with databases := toggle_at st.databases st.pag.currentIndex }
      mode keys lines
  else if c = 'j' ∨ c = 'J' then
    .next { st with pag := navStep N page_size st.pag .moveDown } mode keys lines
  else if c = 'k' ∨ c = 'K' then
    .next { st with pag := navStep N page_size st.pag .moveUp } mode keys lines
  else if c = 'n' ∨ c = 'N' then
    .next { st with pag := navStep N page_size st.pag .nextPage } mode keys lines
  else if c = 'p' ∨ c = 'P' then
    .next { st with pag := navStep N page_size st.pag .prevPage } mode keys lines
  else if c = 'a' ∨ c = 'A' then
    let s := st.pag.currentPage * page_size
    let e := min (st.pag.currentPage * page_size + page_size) N
    .next { st with databases := set_selected_range st.databases s e true } mode keys lines
  else if c = 'd' ∨ c = 'D' then
    let s := st.pag.currentPage * page_size
    let e := min (st.pag.currentPage * page_size + page_size) N
    .next { st with databases := set_selected_range st.databases s e false } mode keys lines
  else if c = '\r' ∨ c = '\n' then
    let selected_dbs := st.databases.filter fun db => db.selected
    if selected_dbs.isEmpty then .next st mode keys lines
    else
      match lines with
      | [] => .halt .eofError st .original
      | t :: lines2 =>
        if confirm_token_ok t then
          .halt (.executed (run_deletions destroy selected_dbs)) st .original
        else
          .next st .raw keys lines2
  else if c = 'q' ∨ c = 'Q' then .halt .quitKey st mode
  else if c = interruptByte then .halt .interrupted st mode
  else .next st mode keys lines

/-- The `while True` loop of `interactive_deletion` (source lines 1235-1321):
each iteration hydrates the visible page (`display_page`, lines 1174-1178),
blocks for one byte, and dispatches.  Recursion is bounded by explicit fuel;
started with more fuel than input bytes, the fuel never runs out. -/
def interactive_loop (showDb : ShowOracle) (destroy : DestroyOracle) :
    Nat → LoopState → TermMode → List Char → List String →
      Outcome × LoopState × TermMode
  | 0, st, mode, _, _ => (.fuelOut, st, mode)
  | fuel + 1, st, mode, keys, lines =>
    let N := st.databases.length
    let s := st.pag.currentPage * page_size
    let e := min (s + page_size) N
    let st1 : LoopState :=
      { st with databases := load_database_details_batch showDb st.databases s e }
    match keys with
    | [] => (.inputExhausted, st1, mode)
    | c :: keys1 =>
      match handleChar destroy st1 mode c keys1 lines with
      | .next st2 mode2 keys2 lines2 =>
        interactive_loop showDb destroy fuel st2 mode2 keys2 lines2
      | .halt o st2 mode2 => (o, st2, mode2)

/-- What `interactive_deletion` leaves behind: how the session ended, the
final in-memory state, and the terminal mode at process exit. -/
structure SessionResult where
  outcome : Outcome
  st : LoopState
  mode : TermMode
deriving Repr, DecidableEq

/-- `interactive_deletion` (source lines 1150-1327) from the point the
directory has been fetched: an empty directory returns before raw mode is
ever entered (lines 1154-1156); otherwise the list is sorted by lowercased
name (line 1158), raw mode is entered inside `try` (line 1233), the input
loop runs, and the `finally` clause (line 1326) restores `old_settings` on
every way out — break on `q`, break on bare escape, completed execution,
`KeyboardInterrupt`, and an unrecovered error from `input()` alike. -/
def interactive_deletion_run (showDb : ShowOracle) (destroy : DestroyOracle)
    (dbs0 : List Item) (keys : List Char) (lines : List String) : SessionResult :=
  if dbs0.isEmpty then
    { outcome := .inputExhausted, st := ⟨[], ⟨0, 0⟩⟩, mode := .original }
  else
    let dbs := dbs0.mergeSort fun a b => decide (a.name.toLower ≤ b.name.toLower)
    let init : LoopState := ⟨dbs, ⟨0, 0⟩⟩
    let r := interactive_loop showDb destroy (keys.length + 1) init .raw keys lines
    { outcome := r.1, st := r.2.1, mode := .original }

/-- The bytes the `interactive_deletion` input loop recognizes: the escape
prefix, the printable command keys of the `elif` chain (source lines
1254-1318), Enter, quit and Ctrl-C. -/
def recognized_bytes : List Char :=
  [escByte, ' ', 'j', 'J', 'k', 'K', 'n', 'N', 'p', 'P', 'a', 'A', 'd', 'D',
   '\r', '\n', 'q', 'Q', interruptByte]

/-! ## Hydration: idempotence, completion, frame -/

/-! ## Selection persistence under navigation and hydration -/

/-- The two kinds of state transition a browsing session interleaves:
a navigation command (arrow/`j`/`k`/`n`/`p` branches) and a
`display_page` hydration call over the current page
(source lines 1174-1178). -/
inductive SessionAction where
  | nav (c : NavCmd)
  | hydrate

/-- Effect of a session action on the loop state, exactly as the loop body
applies it: navigation touches only the cursor pair, hydration replaces the
item list by `load_database_details_batch` over the visible page. -/
def applyAction (showDb : ShowOracle) (st : LoopState) :
    SessionAction → LoopState
  | .nav c =>
    { st with pag := navStep st.databases.length page_size st.pag c }
  | .hydrate =>
    let s := st.pag.currentPage * page_size
    let e := min (s + page_size) st.databases.length
    { st with databases := load_database_details_batch showDb st.databases s e }

/-! ## Bounded hydration concurrency -/

/-- `ThreadPoolExecutor(max_workers=10)` (source line 1092). -/
def max_workers : Nat := 10

/-- State of the worker pool during one hydration call: names not yet
dispatched, names currently in flight, names completed. -/
structure PoolState where
  pending : List String
  inflight : List String
  done : List String
deriving Repr, DecidableEq

/-- Small-step semantics of the fixed-size pool: a pending task may start
only while fewer than `max_workers` tasks are in flight, and an in-flight
task may complete at any time (completion order is unspecified). -/
inductive PoolStep : PoolState → PoolState → Prop
  | dispatch (x : String) (pending inflight done : List String)
      (hfree : inflight.length < max_workers) :
      PoolStep ⟨x :: pending, inflight, done⟩ ⟨pending, x :: inflight, done⟩
  | complete (x : String) (pending inflight done : List String)
      (hx : x ∈ inflight) :
      PoolStep ⟨pending, inflight, done⟩ ⟨pending, inflight.erase x, x :: done⟩

/-- The pool states reachable during the hydration call
`load_database_details_batch(db_list, s, e)`: execution starts with exactly
the `unloaded` names pending (source lines 1092-1093). -/
def poolReachable (l : List Item) (s e : Nat) (st : PoolState) : Prop :=
  Relation.ReflTransGen PoolStep ⟨unloadedNames l s e, [], []⟩ st

/-- The pool invariant: never more than `max_workers` in flight, and only
initially-unloaded names ever circulate. -/
def PoolInv (init : List String) (st : PoolState) : Prop :=
  st.inflight.length ≤ max_workers ∧
  (∀ x ∈ st.inflight, x ∈ init) ∧ (∀ x ∈ st.pending, x ∈ init)

theorem length_load_batch (showDb : ShowOracle) (l : List Item) (s e : Nat) :
    (load_database_details_batch showDb l s e).length = l.length := by
  simp [load_database_details_batch]

theorem getD_load_batch (showDb : ShowOracle) (l : List Item) (s e i : Nat)
    (h : i < l.length) :
    (load_database_details_batch showDb l s e).getD i default =
      (if s ≤ i ∧ i < e ∧ (l.getD i default).details_loaded = false then
        fetch_db_details showDb (l.getD i default)
      else l.getD i default) := by
  have h2 : i < (load_database_details_batch showDb l s e).length := by
    rw [length_load_batch]; exact h
  rw [List.getD_eq_getElem _ _ h2, List.getD_eq_getElem _ _ h]
  simp [load_database_details_batch, List.getElem_mapIdx]

theorem getD_load_batch_oob (showDb : ShowOracle) (l : List Item) (s e i : Nat)
    (h : l.length ≤ i) :
    (load_database_details_batch showDb l s e).getD i default = default := by
  apply List.getD_eq_default
  rw [length_load_batch]; exact h

/-- A hydration worker writes only `group`, `size` and `details_loaded`:
`name` and `selected` are preserved. -/
theorem fetch_db_details_frame (showDb : ShowOracle) (db : Item) :
    (fetch_db_details showDb db).name = db.name ∧
    (fetch_db_details showDb db).selected = db.selected := by
  unfold fetch_db_details
  by_cases h : db.details_loaded
  · simp [h]
  · by_cases h2 : (showDb db.name).code = 0 <;> simp [h, h2]

/-- After one worker run the item has left the unloaded/loading states. -/
theorem fetch_db_details_loaded (showDb : ShowOracle) (db : Item) :
    (fetch_db_details showDb db).details_loaded = true ∨
      (db.details_loaded = true ∧ fetch_db_details showDb db = db) := by
  unfold fetch_db_details
  by_cases h : db.details_loaded
  · right; simp [h]
  · left; simp [h]
    by_cases h2 : (showDb db.name).code = 0 <;> simp [h2]

theorem div_eq_iff_bounds {ps idx page : Nat} (hps : 0 < ps) :
    idx / ps = page ↔ ps * page ≤ idx ∧ idx < ps * page + ps := by
  constructor
  · rintro rfl
    have hdm := Nat.div_add_mod idx ps
    have hm : idx % ps < ps := Nat.mod_lt idx hps
    omega
  · rintro ⟨h1, h2⟩
    have hr : idx = ps * page + (idx - ps * page) := by omega
    rw [hr, Nat.mul_add_div hps]
    have hz : (idx - ps * page) / ps = 0 := Nat.div_eq_of_lt (by omega)
    omega

theorem mul_pred_add (ps q : Nat) (h : q ≠ 0) : ps * (q - 1) + ps = ps * q := by
  cases q with
  | zero => exact absurd rfl h
  | succ p => simp [Nat.mul_succ]

theorem navStep_inv {N ps : Nat} (hps : 0 < ps) (hN : 0 < N) {st : PagState}
    (h : PagInv N ps st) (c : NavCmd) : PagInv N ps (navStep N ps st c) := by
  obtain ⟨idx, page⟩ := st
  obtain ⟨hpage, hidx⟩ := h
  dsimp only at hpage hidx
  have hA : ps * page ≤ idx ∧ idx < ps * page + ps :=
    (div_eq_iff_bounds hps).mp hpage.symm
  cases c with
  | moveUp =>
    simp only [navStep]
    split
    · rename_i hpos
      split
      · rename_i hcond
        have hcomm : page * ps = ps * page := Nat.mul_comm _ _
        have hpz : page ≠ 0 := by
          rintro rfl
          omega
        have hrel := mul_pred_add ps page hpz
        refine ⟨?_, ?_⟩
        · show page - 1 = (idx - 1) / ps
          refine ((div_eq_iff_bounds hps).mpr ?_).symm
          omega
        · show idx - 1 < N
          omega
      · rename_i hcond
        have hcomm : page * ps = ps * page := Nat.mul_comm _ _
        refine ⟨?_, ?_⟩
        · show page = (idx - 1) / ps
          refine ((div_eq_iff_bounds hps).mpr ?_).symm
          omega
        · show idx - 1 < N
          omega
    · exact ⟨hpage, hidx⟩
  | moveDown =>
    simp only [navStep]
    split
    · rename_i hlt
      have hcomm : (page + 1) * ps = ps * page + ps := by ring
      split
      · rename_i hcond
        have hsucc : ps * (page + 1) = ps * page + ps := by ring
        refine ⟨?_, ?_⟩
        · show page + 1 = (idx + 1) / ps
          refine ((div_eq_iff_bounds hps).mpr ?_).symm
          omega
        · show idx + 1 < N
          omega
      · rename_i hcond
        refine ⟨?_, ?_⟩
        · show page = (idx + 1) / ps
          refine ((div_eq_iff_bounds hps).mpr ?_).symm
          omega
        · show idx + 1 < N
          omega
    · exact ⟨hpage, hidx⟩
  | nextPage =>
    simp only [navStep]
    split
    · rename_i hlt
      have htp := (@div_eq_iff_bounds ps (N + ps - 1) ((N + ps - 1) / ps) hps).mp rfl
      have hmono : ps * (page + 2) ≤ ps * total_pages N ps :=
        Nat.mul_le_mul_left ps (by unfold total_pages at hlt ⊢; omega)
      have h2 : ps * (page + 2) = ps * page + ps + ps := by ring
      have hcomm : (page + 1) * ps = ps * page + ps := by ring
      refine ⟨?_, ?_⟩
      · show page + 1 = ((page + 1) * ps) / ps
        exact (Nat.mul_div_cancel _ hps).symm
      · show (page + 1) * ps < N
        unfold total_pages at hmono
        omega
    · exact ⟨hpage, hidx⟩
  | prevPage =>
    simp only [navStep]
    split
    · rename_i hpos
      have hpz : page ≠ 0 := by omega
      have hrel := mul_pred_add ps page hpz
      have hcomm : (page - 1) * ps = ps * (page - 1) := Nat.mul_comm _ _
      refine ⟨?_, ?_⟩
      · show page - 1 = ((page - 1) * ps) / ps
        exact (Nat.mul_div_cancel _ hps).symm
      · show (page - 1) * ps < N
        omega
    · exact ⟨hpage, hidx⟩

theorem foldl_navStep_inv {N ps : Nat} (hps : 0 < ps) (hN : 0 < N)
    {st : PagState} (h : PagInv N ps st) (cmds : List NavCmd) :
    PagInv N ps (cmds.foldl (navStep N ps) st) := by
  induction cmds generalizing st with
  | nil => exact h
  | cons c rest ih => exact ih (navStep_inv hps hN h c)

theorem total_pages_is_ceil {N ps : Nat} (hps : 0 < ps) :
    N ≤ ps * total_pages N ps ∧ ∀ m, N ≤ ps * m → total_pages N ps ≤ m := by
  have htp := (@div_eq_iff_bounds ps (N + ps - 1) ((N + ps - 1) / ps) hps).mp rfl
  unfold total_pages
  constructor
  · omega
  · intro m hm
    have hs : ps * (m + 1) = ps * m + ps := by ring
    have : ps * ((N + ps - 1) / ps) < ps * (m + 1) := by omega
    exact Nat.lt_succ_iff.mp (Nat.lt_of_mul_lt_mul_left this)

/-- C1 — Pagination/cursor invariant: for every directory of `N > 0` items
and fixed positive page size, after every sequence of
MoveUp/MoveDown/NextPage/PrevPage commands from the initial state
(`currentIndex = 0`, `currentPage = 0`) the state satisfies
`currentPage = currentIndex / pageSize` and `0 ≤ currentIndex ≤ N-1`;
`total_pages` is `ceil(N / pageSize)` (characterized as the least `m` with
`N ≤ pageSize * m`); MoveUp at index 0 and MoveDown at index `N-1` are
no-ops.  Quantifying over all command lists covers the state after every
prefix, i.e. after every command application. -/
theorem pagination_invariant_C1 (N ps : Nat) (hN : 0 < N) (hps : 0 < ps)
    (cmds : List NavCmd) :
    ((cmds.foldl (navStep N ps) ⟨0, 0⟩).currentPage =
        (cmds.foldl (navStep N ps) ⟨0, 0⟩).currentIndex / ps ∧
      (cmds.foldl (navStep N ps) ⟨0, 0⟩).currentIndex ≤ N - 1)
  ∧ (N ≤ ps * total_pages N ps ∧ ∀ m, N ≤ ps * m → total_pages N ps ≤ m)
  ∧ (∀ st : PagState, st.currentIndex = 0 → navStep N ps st .moveUp = st)
  ∧ (∀ st : PagState, st.currentIndex = N - 1 → navStep N ps st .moveDown = st) := by
  have hInv : PagInv N ps (cmds.foldl (navStep N ps) ⟨0, 0⟩) :=
    foldl_navStep_inv hps hN ⟨(Nat.zero_div ps).symm, hN⟩ cmds
  refine ⟨⟨hInv.1, by have := hInv.2; omega⟩, total_pages_is_ceil hps, ?_, ?_⟩
  · intro st h0
    simp [navStep, h0]
  · intro st hN1
    simp [navStep, hN1]

theorem pagination_invariant_C1_witness :
    0 < 30 ∧ 0 < 25 ∧
    ((([NavCmd.moveDown, NavCmd.nextPage].foldl (navStep 30 25) ⟨0, 0⟩).currentPage =
        ([NavCmd.moveDown, NavCmd.nextPage].foldl (navStep 30 25) ⟨0, 0⟩).currentIndex / 25 ∧
      ([NavCmd.moveDown, NavCmd.nextPage].foldl (navStep 30 25) ⟨0, 0⟩).currentIndex ≤ 30 - 1)
    ∧ (30 ≤ 25 * total_pages 30 25 ∧ ∀ m, 30 ≤ 25 * m → total_pages 30 25 ≤ m)
    ∧ (∀ st : PagState, st.currentIndex = 0 → navStep 30 25 st .moveUp = st)
    ∧ (∀ st : PagState, st.currentIndex = 30 - 1 → navStep 30 25 st .moveDown = st)) :=
  ⟨by decide, by decide,
    pagination_invariant_C1 30 25 (by decide) (by decide)
      [NavCmd.moveDown, NavCmd.nextPage]⟩

/-- C6 — Input decoder state machine: from the idle state, `ESC [ A` emits
MoveUp and `ESC [ B` emits MoveDown; `ESC` followed by any byte other than
`[` emits Quit (bare escape ends the session); `ESC [` followed by any byte
other than `A`/`B` emits a no-op.  In every case the returned remainder is
exactly the unconsumed input, so the next decoding step starts from the idle
state. -/
theorem input_decoder_C6 (c a : Char) (rest : List Char)
    (hc : c ≠ '[') (ha1 : a ≠ 'A') (ha2 : a ≠ 'B') :
    decodeKey (escByte :: '[' :: 'A' :: rest) = (.moveUp, rest)
  ∧ decodeKey (escByte :: '[' :: 'B' :: rest) = (.moveDown, rest)
  ∧ decodeKey (escByte :: c :: rest) = (.quit, rest)
  ∧ decodeKey (escByte :: '[' :: a :: rest) = (.noop, rest) := by
  refine ⟨?_, ?_, ?_, ?_⟩ <;> simp [decodeKey, hc, ha1, ha2]

theorem input_decoder_C6_witness :
    ('x' : Char) ≠ '[' ∧ ('C' : Char) ≠ 'A' ∧ ('C' : Char) ≠ 'B' ∧
    (decodeKey (escByte :: '[' :: 'A' :: ['q']) = (.moveUp, ['q'])
    ∧ decodeKey (escByte :: '[' :: 'B' :: ['q']) = (.moveDown, ['q'])
    ∧ decodeKey (escByte :: 'x' :: ['q']) = (.quit, ['q'])
    ∧ decodeKey (escByte :: '[' :: 'C' :: ['q']) = (.noop, ['q'])) :=
  ⟨by decide, by decide, by decide,
    input_decoder_C6 'x' 'C' ['q'] (by decide) (by decide) (by decide)⟩

/-- C10 — Implicit frame property: during browsing, a single input byte that
is no recognized command byte (digits included) matches no branch of the
`elif` chain: the loop state (cursor, pages, every item's `selected`,
`size`, `group`, `details_loaded`), the terminal mode and the unread input
are all unchanged, and the loop goes back to blocking for the next
keystroke. -/
theorem unrecognized_byte_noop_C10 (destroy : DestroyOracle) (st : LoopState)
    (mode : TermMode) (keys : List Char) (lines : List String) (c : Char)
    (h : c ∉ recognized_bytes) :
    handleChar destroy st mode c keys lines = .next st mode keys lines := by
  simp only [recognized_bytes, List.mem_cons, List.not_mem_nil, or_false,
    not_or] at h
  obtain ⟨h1, h2, h3, h4, h5, h6, h7, h8, h9, h10, h11, h12, h13, h14, h15,
    h16, h17, h18, h19⟩ := h
  simp [handleChar, h1, h2, h3, h4, h5, h6, h7, h8, h9, h10, h11, h12, h13,
    h14, h15, h16, h17, h18, h19]

theorem unrecognized_byte_noop_C10_witness :
    ('5' : Char) ∉ recognized_bytes ∧
    handleChar (fun _ => true) ⟨[mkItem "a" "g"], ⟨0, 0⟩⟩ .raw '5' [] [] =
      .next ⟨[mkItem "a" "g"], ⟨0, 0⟩⟩ .raw [] [] :=
  ⟨by decide,
    unrecognized_byte_noop_C10 (fun _ => true) ⟨[mkItem "a" "g"], ⟨0, 0⟩⟩
      .raw [] [] '5' (by decide)⟩

/-- C8 — Raw terminal mode is a scoped resource: an empty directory returns
before raw mode is entered; otherwise raw mode is acquired once at session
start and the `finally` clause restores the saved settings on every exit
path — `q` quit, bare-escape quit, completed or declined execution,
`KeyboardInterrupt` and an unrecovered `input()` error — so for every input
whatsoever the session ends with the terminal in its original mode. -/
theorem raw_mode_restored_C8 (showDb : ShowOracle) (destroy : DestroyOracle)
    (dbs0 : List Item) (keys : List Char) (lines : List String) :
    (interactive_deletion_run showDb destroy dbs0 keys lines).mode =
      .original := by
  unfold interactive_deletion_run
  split <;> rfl

/-- C4 (amended) — Confirmation gate: Enter while browsing with an empty
selection set is a no-op (same state, same mode, no input consumed); with a
non-empty selection the typed line is stripped of surrounding whitespace and
compared to the literal token `DELETE` — only a line whose stripped form is
exactly `DELETE` (in particular never a single `y`) starts execution, and
every other line returns to browsing with the selection set unchanged and
raw mode restored. -/
theorem confirm_gate_C4 (destroy : DestroyOracle) (st : LoopState)
    (mode : TermMode) (keys : List Char) (lines : List String)
    (t : String) (lines2 : List String) :
    ((st.databases.filter fun db => db.selected) = [] →
      handleChar destroy st mode '\r' keys lines = .next st mode keys lines)
  ∧ ((st.databases.filter fun db => db.selected).isEmpty = false →
      confirm_token_ok t = false →
      handleChar destroy st mode '\r' keys (t :: lines2) =
        .next st .raw keys lines2)
  ∧ ((st.databases.filter fun db => db.selected).isEmpty = false →
      confirm_token_ok t = true →
      handleChar destroy st mode '\r' keys (t :: lines2) =
        .halt (.executed (run_deletions destroy
          (st.databases.filter fun db => db.selected))) st .original)
  ∧ (confirm_token_ok t = true ↔ py_strip t = "DELETE")
  ∧ confirm_token_ok "y" = false := by
  refine ⟨?_, ?_, ?_, ?_, by decide⟩
  · intro hsel
    simp [handleChar, escByte, hsel]
  · intro hsel htok
    simp [handleChar, escByte, hsel, htok]
  · intro hsel htok
    simp [handleChar, escByte, hsel, htok]
  · simp [confirm_token_ok]

/-- C4 counterexample — the claim as stated ("execution proceeds only if the
operator types the exact literal confirmation token") fails on the code:
the typed line is passed through `.strip()` before the comparison
(source lines 1297 and 1592), so the line `"DELETE "` — which is not the
literal `"DELETE"` — also passes the gate. -/
theorem confirm_gate_C4_counterexample :
    confirm_token_ok "DELETE " = true ∧ "DELETE " ≠ "DELETE" := by
  refine ⟨by decide, by decide⟩

theorem confirm_gate_C4_witness :
    ((⟨[{ mkItem "a" "g" with selected := true }], ⟨0, 0⟩⟩ :
        LoopState).databases.filter fun db => db.selected).isEmpty = false ∧
    confirm_token_ok "no" = false ∧
    handleChar (fun _ => true)
        ⟨[{ mkItem "a" "g" with selected := true }], ⟨0, 0⟩⟩ .original '\r'
        [] ("no" :: []) =
      .next ⟨[{ mkItem "a" "g" with selected := true }], ⟨0, 0⟩⟩ .raw [] [] :=
  ⟨by decide, by decide,
    (confirm_gate_C4 (fun _ => true)
        ⟨[{ mkItem "a" "g" with selected := true }], ⟨0, 0⟩⟩ .original
        [] [] "no" []).2.1 (by decide) (by decide)⟩

/-- Closed form of the execution loop of `delete_empty_databases_interactive`
for any starting accumulator. -/
theorem delete_selected_go_spec (destroy : DestroyOracle) (selected : List Item)
    (acc : ExecReport × List String) :
    delete_selected_go destroy acc selected =
      ({ success_count := acc.1.success_count +
            (selected.filter fun db => destroy db.name).length,
         failure_count := acc.1.failure_count +
            (selected.filter fun db => !(destroy db.name)).length,
         failed_databases := acc.1.failed_databases ++
            ((selected.filter fun db => !(destroy db.name)).map Item.name) },
       acc.2 ++ selected.map Item.name) := by
  induction selected generalizing acc with
  | nil => simp [delete_selected_go]
  | cons db rest ih =>
    by_cases hd : destroy db.name
    · simp [delete_selected_go, hd, ih, List.filter_cons]
      omega
    · simp [delete_selected_go, hd, ih, List.filter_cons]
      omega

theorem filter_length_split {α : Type} (p : α → Bool) (l : List α) :
    (l.filter p).length + (l.filter fun a => !(p a)).length = l.length := by
  induction l with
  | nil => simp
  | cons a rest ih =>
    by_cases h : p a <;> simp [List.filter_cons, h] <;> omega

/-- C2 — Execution report completeness: for every confirmed selection the
destroy collaborator is invoked exactly once per selected item (in order);
the final report counts the successes, counts the failures, lists the names
of the failed items, and the two counts sum to the number of selected items,
so no selected item is dropped.  In the concrete 3-item scenario where
exactly one destroy fails, the report is 2 succeeded / 1 failed with the
failing name listed. -/
theorem execution_report_C2 (destroy : DestroyOracle) (selected : List Item) :
    (delete_selected_report destroy selected).2 = selected.map Item.name
  ∧ (delete_selected_report destroy selected).1.success_count =
      (selected.filter fun db => destroy db.name).length
  ∧ (delete_selected_report destroy selected).1.failure_count =
      (selected.filter fun db => !(destroy db.name)).length
  ∧ (delete_selected_report destroy selected).1.failed_databases =
      (selected.filter fun db => !(destroy db.name)).map Item.name
  ∧ (delete_selected_report destroy selected).1.success_count +
      (delete_selected_report destroy selected).1.failure_count =
        selected.length
  ∧ (delete_selected_report (fun n => !(n == "beta"))
        [mkItem "alpha" "g", mkItem "beta" "g", mkItem "gamma" "g"]).1 =
      ⟨2, 1, ["beta"]⟩ := by
  have h := delete_selected_go_spec destroy selected (⟨0, 0, []⟩, [])
  unfold delete_selected_report
  rw [h]
  refine ⟨by simp, by simp, by simp, by simp, ?_, by decide⟩
  simp [filter_length_split]

theorem mem_batchFetchedIdx {l : List Item} {s e i : Nat} :
    i ∈ batchFetchedIdx l s e ↔
      i < l.length ∧ s ≤ i ∧ i < e ∧
        (l.getD i default).details_loaded = false := by
  simp [batchFetchedIdx, List.mem_filter, List.mem_range]

/-- Every item of the batch range has `details_loaded` set once the call
returns. -/
theorem load_batch_loaded (showDb : ShowOracle) (l : List Item) (s e i : Nat)
    (hs : s ≤ i) (he : i < e) (hl : i < l.length) :
    ((load_database_details_batch showDb l s e).getD i default).details_loaded
      = true := by
  rw [getD_load_batch showDb l s e i hl]
  split
  · rename_i hcond
    rcases fetch_db_details_loaded showDb (l.getD i default) with h | ⟨h, _⟩
    · exact h
    · rw [hcond.2.2] at h
      exact absurd h (by simp)
  · rename_i hcond
    rcases Bool.eq_false_or_eq_true (l.getD i default).details_loaded with h | h
    · exact h
    · exact absurd ⟨hs, he, h⟩ hcond

/-- C3 — Hydration idempotence / at-most-once: an index fetched by one
hydration call is never fetched again by a later call over any overlapping
range (the first call leaves it `details_loaded`); and a call over a range
whose items are all already loaded (`Loaded` or `Error` both set
`details_loaded`) submits nothing to the pool and changes no item. -/
theorem hydration_idempotent_C3 (showDb showDb2 : ShowOracle) (l : List Item)
    (s1 e1 s2 e2 : Nat) :
    (∀ i ∈ batchFetchedIdx l s1 e1,
      i ∉ batchFetchedIdx (load_database_details_batch showDb l s1 e1) s2 e2)
  ∧ (∀ (l2 : List Item) (s e : Nat),
      (∀ i, s ≤ i → i < e → i < l2.length →
        (l2.getD i default).details_loaded = true) →
      batchFetchedIdx l2 s e = [] ∧
        load_database_details_batch showDb2 l2 s e = l2) := by
  constructor
  · intro i h1 h2
    obtain ⟨hl, hs, he, _⟩ := mem_batchFetchedIdx.mp h1
    obtain ⟨_, _, _, hfalse⟩ := mem_batchFetchedIdx.mp h2
    rw [load_batch_loaded showDb l s1 e1 i hs he hl] at hfalse
    exact absurd hfalse (by simp)
  · intro l2 s e hload
    constructor
    · simp only [batchFetchedIdx]
      rw [List.filter_eq_nil_iff]
      intro i hi
      rw [List.mem_range] at hi
      simp only [decide_eq_true_eq, not_and]
      intro hs he
      rw [hload i hs he hi]
      simp
    · apply List.ext_getElem (length_load_batch showDb2 l2 s e)
      intro n h1 h2
      simp only [load_database_details_batch, List.getElem_mapIdx]
      split
      · rename_i hcond
        have := hload n hcond.1 hcond.2.1 h2
        rw [List.getD_eq_getElem _ _ h2] at this
        rw [hcond.2.2] at this
        exact absurd this (by simp)
      · rfl

theorem hydration_idempotent_C3_witness :
    (∀ i, 0 ≤ i → i < 1 → i <
        ([{ mkItem "a" "g" with details_loaded := true }] : List Item).length →
      (([{ mkItem "a" "g" with details_loaded := true }] : List Item).getD i
        default).details_loaded = true) ∧
    (batchFetchedIdx [{ mkItem "a" "g" with details_loaded := true }] 0 1 = []
      ∧ load_database_details_batch (fun _ => ⟨0, none, none⟩)
          [{ mkItem "a" "g" with details_loaded := true }] 0 1 =
        [{ mkItem "a" "g" with details_loaded := true }]) := by
  have hp : ∀ i, 0 ≤ i → i < 1 → i <
      ([{ mkItem "a" "g" with details_loaded := true }] : List Item).length →
      (([{ mkItem "a" "g" with details_loaded := true }] : List Item).getD i
        default).details_loaded = true := by
    intro i h0 h1 h2
    have : i = 0 := by omega
    subst this
    decide
  exact ⟨hp,
    (hydration_idempotent_C3 (fun _ => ⟨0, none, none⟩)
        (fun _ => ⟨0, none, none⟩) [] 0 0 0 0).2
      [{ mkItem "a" "g" with details_loaded := true }] 0 1 hp⟩

/-- C7 — Hydration completion and failure policy: when the call returns,
every item of the batch `[start, end)` has left the loading state
(`details_loaded` is set, covering both `Loaded` and `Error`); a fetch whose
`turso db show` exits non-zero sets exactly the placeholder `"Error"` detail
and the loaded flag on its item; and each position of the result depends
only on that item's own fetch, so one failure can neither abort sibling
fetches nor raise past the call. -/
theorem hydration_completion_C7 (showDb : ShowOracle) (l : List Item)
    (s e i : Nat) :
    (s ≤ i → i < e → i < l.length →
      ((load_database_details_batch showDb l s e).getD i default).details_loaded
        = true)
  ∧ (∀ db : Item, db.details_loaded = false → ¬((showDb db.name).code = 0) →
      fetch_db_details showDb db =
        { db with size := "Error", details_loaded := true })
  ∧ (∀ j, j < l.length →
      (load_database_details_batch showDb l s e).getD j default =
        (if s ≤ j ∧ j < e ∧ (l.getD j default).details_loaded = false then
          fetch_db_details showDb (l.getD j default)
        else l.getD j default)) := by
  refine ⟨load_batch_loaded showDb l s e i, ?_, ?_⟩
  · intro db hun hcode
    simp [fetch_db_details, hun, hcode]
  · intro j hj
    exact getD_load_batch showDb l s e j hj

theorem hydration_completion_C7_witness :
    ((load_database_details_batch (fun _ => ⟨1, none, none⟩)
        [mkItem "a" "g"] 0 1).getD 0 default).details_loaded = true ∧
    fetch_db_details (fun _ => ⟨1, none, none⟩) (mkItem "a" "g") =
      { mkItem "a" "g" with size := "Error", details_loaded := true } :=
  ⟨(hydration_completion_C7 (fun _ => ⟨1, none, none⟩) [mkItem "a" "g"]
      0 1 0).1 (by decide) (by decide) (by decide),
   (hydration_completion_C7 (fun _ => ⟨1, none, none⟩) [mkItem "a" "g"]
      0 1 0).2.1 (mkItem "a" "g") (by decide) (by decide)⟩

theorem applyAction_keeps (showDb : ShowOracle) (a : SessionAction)
    (st : LoopState) (i : Nat) :
    (applyAction showDb st a).databases.length = st.databases.length ∧
    ((applyAction showDb st a).databases.getD i default).selected =
      (st.databases.getD i default).selected ∧
    ((applyAction showDb st a).databases.getD i default).name =
      (st.databases.getD i default).name := by
  cases a with
  | nav c => exact ⟨rfl, rfl, rfl⟩
  | hydrate =>
    simp only [applyAction]
    refine ⟨length_load_batch _ _ _ _, ?_⟩
    by_cases h : i < st.databases.length
    · rw [getD_load_batch _ _ _ _ i h]
      split
      · exact ⟨(fetch_db_details_frame showDb _).2,
          (fetch_db_details_frame showDb _).1⟩
      · exact ⟨rfl, rfl⟩
    · rw [getD_load_batch_oob _ _ _ _ i (Nat.le_of_not_lt h),
        List.getD_eq_default _ _ (Nat.le_of_not_lt h)]
      exact ⟨rfl, rfl⟩

/-- C5 — Selection persistence and hydration frame: over any interleaving of
navigation commands and hydration calls, every item keeps its `selected`
flag and its `name` (so an item selected before navigating away is still
selected when its page is shown again); a hydration call never changes the
pagination state; and a hydration worker writes only its own item's
`size`/`group`/`details_loaded` fields, never `selected` or `name`. -/
theorem selection_frame_C5 (showDb : ShowOracle) (acts : List SessionAction)
    (st : LoopState) (i : Nat) :
    ((acts.foldl (applyAction showDb) st).databases.getD i default).selected =
      (st.databases.getD i default).selected
  ∧ ((acts.foldl (applyAction showDb) st).databases.getD i default).name =
      (st.databases.getD i default).name
  ∧ (acts.foldl (applyAction showDb) st).databases.length =
      st.databases.length
  ∧ (∀ s2 : LoopState, (applyAction showDb s2 .hydrate).pag = s2.pag)
  ∧ (∀ db : Item, (fetch_db_details showDb db).selected = db.selected ∧
      (fetch_db_details showDb db).name = db.name) := by
  refine ⟨?_, ?_, ?_, fun s2 => rfl,
    fun db => ⟨(fetch_db_details_frame showDb db).2,
      (fetch_db_details_frame showDb db).1⟩⟩ <;>
  · induction acts generalizing st with
    | nil => rfl
    | cons a rest ih =>
      rw [List.foldl_cons, ih (applyAction showDb st a)]
      first
      | exact (applyAction_keeps showDb a st i).2.1
      | exact (applyAction_keeps showDb a st i).2.2
      | exact (applyAction_keeps showDb a st i).1

theorem poolStep_inv (init : List String) {a b : PoolState}
    (hstep : PoolStep a b) (h : PoolInv init a) : PoolInv init b := by
  cases hstep with
  | dispatch x pending inflight done hfree =>
    obtain ⟨h1, h2, h3⟩ := h
    refine ⟨by simpa using hfree, ?_, ?_⟩
    · intro y hy
      rcases List.mem_cons.mp hy with rfl | hy
      · exact h3 y (List.mem_cons_self _ _)
      · exact h2 y hy
    · intro y hy
      exact h3 y (List.mem_cons_of_mem _ hy)
  | complete x pending inflight done hx =>
    obtain ⟨h1, h2, h3⟩ := h
    have h1a : inflight.length ≤ max_workers := h1
    refine ⟨?_, fun y hy => h2 y (List.erase_subset _ _ hy), h3⟩
    show (inflight.erase x).length ≤ max_workers
    rw [List.length_erase]
    split <;> omega

/-- C9 — Bounded hydration concurrency: in every state the pool can reach
during a hydration call, at most `max_workers = 10` fetches are in flight,
and every name in flight (or still pending) is one of the `unloaded` names
of the batch — only items whose `details_loaded` is unset are ever
submitted. -/
theorem bounded_concurrency_C9 (l : List Item) (s e : Nat) (st : PoolState)
    (h : poolReachable l s e st) :
    st.inflight.length ≤ max_workers ∧
    (∀ x ∈ st.inflight, x ∈ unloadedNames l s e) ∧
    (∀ x ∈ st.pending, x ∈ unloadedNames l s e) := by
  have hInv : PoolInv (unloadedNames l s e) st := by
    induction h with
    | refl => exact ⟨by simp [max_workers], by simp, fun x hx => hx⟩
    | tail hsteps hstep ih => exact poolStep_inv _ hstep ih
  exact hInv

theorem bounded_concurrency_C9_witness :
    poolReachable [mkItem "a" "g"] 0 1
      ⟨unloadedNames [mkItem "a" "g"] 0 1, [], []⟩ ∧
    ((⟨unloadedNames [mkItem "a" "g"] 0 1, [], []⟩ :
        PoolState).inflight.length ≤ max_workers ∧
      (∀ x ∈ (⟨unloadedNames [mkItem "a" "g"] 0 1, [], []⟩ :
          PoolState).inflight, x ∈ unloadedNames [mkItem "a" "g"] 0 1) ∧
      (∀ x ∈ (⟨unloadedNames [mkItem "a" "g"] 0 1, [], []⟩ :
          PoolState).pending, x ∈ unloadedNames [mkItem "a" "g"] 0 1)) :=
  ⟨Relation.ReflTransGen.refl,
    bounded_concurrency_C9 [mkItem "a" "g"] 0 1 _ Relation.ReflTransGen.refl⟩

end Turso
